import Mathlib

/-!
Shallow embedding of the PostgreSQL planner's ordering-and-join-graph
subsystem: `src/backend/optimizer/path/pathkeys.c` and
`src/backend/optimizer/util/relnode.c`.

Modelling conventions:
* pg `List` cells become Lean `List`s; `lcons` is `::`, `lappend` appends at
  the back, `nconc` is `++`, `listCopy` is the identity on list values.
* Expression trees (`Node *`) are modelled by the inductive `PKExpr`;
  the external `equal()` structural-equality test is decidable equality.
* External collaborators that live outside the two embedded files
  (catalog lookups, cost estimation, redundant-clause removal) are passed
  in as explicit function parameters, so all theorems hold for every
  choice of collaborator unless stated otherwise.
* `elog(ERROR, ...)` is modelled with `Except String`.
-/

namespace PgPlanner

/-- Expression trees appearing in pathkeys: plain `Var` nodes
(range-table index plus attribute number) and functional-index
function calls.  The arguments of a functional-index Func clause are
always Var nodes here (`find_indexkey_var` returns a Var), so they are
stored as (relid, attno) pairs.  Structural `equal()` on expressions is
decidable equality on this type. -/
inductive PKExpr where
  | var (relid : Nat) (attno : Nat) : PKExpr
  | funcexpr (funcid : Nat) (argvars : List (Nat × Nat)) : PKExpr
deriving DecidableEq

/-- PathKeyItem node: an expression together with a sort operator OID. -/
structure PathKeyItem where
  key : PKExpr
  sortop : Nat
deriving DecidableEq

/-- `makePathKeyItem` from pathkeys.c. -/
def makePathKeyItem (key : PKExpr) (sortop : Nat) : PathKeyItem :=
  { key := key, sortop := sortop }

/-- pg's `member()`: membership by structural `equal()`. -/
def member {α : Type} [DecidableEq α] (x : α) : List α → Bool
  | [] => false
  | y :: t => if x = y then true else member x t

/-- pg's `set_union()` / `LispUnion()`: copy the first list, then append
each element of the second list not already present. -/
def set_union {α : Type} [DecidableEq α] (l1 l2 : List α) : List α :=
  l2.foldl (fun acc x => if member x acc then acc else acc ++ [x]) l1

/-- `LispUnion` (nodes/list.c) is the same equal()-based list union used
under that name by pathkeys.c. -/
def LispUnion (l1 l2 : List PathKeyItem) : List PathKeyItem :=
  set_union l1 l2

/-- pg's `intMember()` on integer (relid) lists. -/
def intMember (x : Nat) (l : List Nat) : Bool :=
  member x l

/-- pg's `is_subseti()`: every member of the first relid list appears in
the second. -/
def is_subseti (l1 l2 : List Nat) : Bool :=
  l1.all (fun x => intMember x l2)

/-- pg's `sameseti()`: relid-list set equality (mutual inclusion). -/
def sameseti (l1 l2 : List Nat) : Bool :=
  is_subseti l1 l2 && is_subseti l2 l1

/-- pg's `set_differencei()`: members of the first relid list that are
absent from the second. -/
def set_differencei (l1 l2 : List Nat) : List Nat :=
  l1.filter (fun x => !(intMember x l2))

/-- RestrictInfo: an annotated predicate.  The clause is an equality
between two operand expressions; the per-side sortops and the mergejoin
operator are the fields used by the embedded code. -/
structure RestrictInfo where
  clause_left : PKExpr
  clause_right : PKExpr
  left_sortop : Nat
  right_sortop : Nat
  mergejoinoperator : Nat
deriving DecidableEq

/-- JoinInfo: predicates still awaiting the relids in `unjoined_relids`. -/
structure JoinInfo where
  unjoined_relids : List Nat
  jinfo_restrictinfo : List RestrictInfo
deriving DecidableEq

/-- Targetlist entry: resdom number plus the expression produced. -/
structure TargetEntry where
  resdomno : Nat
  expr : PKExpr
deriving DecidableEq

inductive RelOptKind where
  | RELOPT_BASEREL
  | RELOPT_OTHER_CHILD_REL
  | RELOPT_JOINREL
deriving DecidableEq

inductive RTEKind where
  | RTE_RELATION
  | RTE_SUBQUERY
  | RTE_JOIN
  | RTE_SPECIAL
  | RTE_FUNCTION
deriving DecidableEq

/-- IndexOptInfo fields used by build_index_pathkeys: the zero-terminated
column-number array, the InvalidOid(0)-terminated ordering-operator
array, and the function OID for a functional index (0 = none). -/
structure IndexOptInfo where
  indexkeys : List Nat
  ordering : List Nat
  indproc : Nat
deriving DecidableEq

/-- The RelOptInfo fields read or written by the embedded code. -/
structure RelOptInfo where
  reloptkind : RelOptKind
  relids : List Nat
  rows : Nat
  width : Nat
  targetlist : List TargetEntry
  joininfo : List JoinInfo
  indexlist : List IndexOptInfo
  pages : Nat
  tuples : Nat
  rtekind : RTEKind
deriving DecidableEq

/-- Range-table entry: its kind and the referenced table OID. -/
structure RangeTblEntry where
  rtekind : RTEKind
  relid : Nat
deriving DecidableEq

/-- The per-query planning context (`Query *root`): the fields of the
Query node that this subsystem reads or mutates. -/
structure Query where
  rtable : List RangeTblEntry
  base_rel_list : List RelOptInfo
  other_rel_list : List RelOptInfo
  join_rel_list : List RelOptInfo
  equi_key_list : List (List PathKeyItem)
deriving DecidableEq

/-- A Query with nothing recorded yet (start of a planning pass). -/
def emptyQuery : Query :=
  { rtable := [], base_rel_list := [], other_rel_list := [],
    join_rel_list := [], equi_key_list := [] }

/-! ### Equivalence registry (pathkeys.c) -/

/-- `add_equijoined_keys` (pathkeys.c lines 208-252).  Makes PathKeyItems
for the two sides of the clause; ignores trivial self-equality; otherwise
starts a two-element set, sweeps the existing `equi_key_list` merging
(and removing) every set that contains either item, and finally prepends
the merged set.  The sweep iterates over the original list cells, so the
surviving sets keep their relative order. -/
def add_equijoined_keys (root : Query) (restrictinfo : RestrictInfo) : Query :=
  if makePathKeyItem restrictinfo.clause_left restrictinfo.left_sortop =
      makePathKeyItem restrictinfo.clause_right restrictinfo.right_sortop then
    root
  else
    { root with equi_key_list :=
        (root.equi_key_list.foldl
          (fun newset curset =>
            if member (makePathKeyItem restrictinfo.clause_left restrictinfo.left_sortop) curset ||
               member (makePathKeyItem restrictinfo.clause_right restrictinfo.right_sortop) curset
            then LispUnion newset curset
            else newset)
          [makePathKeyItem restrictinfo.clause_left restrictinfo.left_sortop,
           makePathKeyItem restrictinfo.clause_right restrictinfo.right_sortop]) ::
        (root.equi_key_list.filter
          (fun curset =>
            !(member (makePathKeyItem restrictinfo.clause_left restrictinfo.left_sortop) curset ||
              member (makePathKeyItem restrictinfo.clause_right restrictinfo.right_sortop) curset))) }

/-- `make_canonical_pathkey` (pathkeys.c lines 266-279): return the first
equi_key_list set containing the item, else a fresh singleton (not
inserted into the registry). -/
def make_canonical_pathkey (root : Query) (item : PathKeyItem) : List PathKeyItem :=
  match root.equi_key_list.find? (fun curset => member item curset) with
  | some curset => curset
  | none => [item]

/-- `canonicalize_pathkeys` (pathkeys.c lines 288-310): canonicalize each
position by resolving its first member (the source asserts every sublist
is nonempty; an empty sublist maps to itself). -/
def canonicalize_pathkeys (root : Query) (pathkeys : List (List PathKeyItem)) :
    List (List PathKeyItem) :=
  pathkeys.map (fun pathkey =>
    match pathkey with
    | item :: _ => make_canonical_pathkey root item
    | [] => [])

/-! ### Pathkey comparison (pathkeys.c) -/

inductive PathKeysComparison where
  | PATHKEYS_EQUAL
  | PATHKEYS_BETTER1
  | PATHKEYS_BETTER2
  | PATHKEYS_DIFFERENT
deriving DecidableEq

/-- `compare_pathkeys` (pathkeys.c lines 335-366): walk both lists; any
position whose sublists are not `equal()` decides PATHKEYS_DIFFERENT;
exhausting both together is EQUAL; the longer list is better. -/
def compare_pathkeys : List (List PathKeyItem) → List (List PathKeyItem) → PathKeysComparison
  | [], [] => .PATHKEYS_EQUAL
  | _ :: _, [] => .PATHKEYS_BETTER1
  | [], _ :: _ => .PATHKEYS_BETTER2
  | subkey1 :: rest1, subkey2 :: rest2 =>
    if subkey1 = subkey2 then compare_pathkeys rest1 rest2
    else .PATHKEYS_DIFFERENT

/-- `pathkeys_contained_in` (pathkeys.c lines 373-385). -/
def pathkeys_contained_in (keys1 keys2 : List (List PathKeyItem)) : Bool :=
  match compare_pathkeys keys1 keys2 with
  | .PATHKEYS_EQUAL => true
  | .PATHKEYS_BETTER2 => true
  | _ => false

/-! ### Cheapest-path selection (pathkeys.c) -/

inductive CostSelector where
  | STARTUP_COST
  | TOTAL_COST
deriving DecidableEq

/-- Path: the fields read by get_cheapest_path_for_pathkeys.  Costs are
scalar; the spec treats the cost estimator as an external collaborator
returning a scalar cost per criterion. -/
structure Path where
  pathkeys : List (List PathKeyItem)
  startup_cost : Nat
  total_cost : Nat
deriving DecidableEq

/-- The scalar cost a criterion selects. -/
def pathCost (criterion : CostSelector) (p : Path) : Nat :=
  match criterion with
  | .STARTUP_COST => p.startup_cost
  | .TOTAL_COST => p.total_cost

/-- Modelled from the spec: `compare_path_costs` lives in the external
cost estimator (optimizer/path/costsize.c, not under src/); spec section 6
gives `compareCost(pathA, pathB, criterion) -> sign`, comparing the scalar
cost selected by the criterion. -/
def compare_path_costs (path1 path2 : Path) (criterion : CostSelector) : Int :=
  if pathCost criterion path1 < pathCost criterion path2 then -1
  else if pathCost criterion path2 < pathCost criterion path1 then 1
  else 0

/-- One iteration of the get_cheapest_path_for_pathkeys loop: keep the
current best unless the candidate is strictly cheaper AND satisfies the
required ordering (cost test first, as in the source). -/
def cheapest_step (pathkeys : List (List PathKeyItem)) (criterion : CostSelector)
    (matched_path : Option Path) (path : Path) : Option Path :=
  match matched_path with
  | some m =>
    if compare_path_costs m path criterion ≤ 0 then some m
    else if pathkeys_contained_in pathkeys path.pathkeys then some path
    else some m
  | none =>
    if pathkeys_contained_in pathkeys path.pathkeys then some path else none

/-- `get_cheapest_path_for_pathkeys` (pathkeys.c lines 396-419). -/
def get_cheapest_path_for_pathkeys (paths : List Path)
    (pathkeys : List (List PathKeyItem)) (cost_criterion : CostSelector) : Option Path :=
  paths.foldl (cheapest_step pathkeys cost_criterion) none

/-! ### Index pathkeys (pathkeys.c) -/

inductive ScanDirection where
  | BackwardScanDirection
  | NoMovementScanDirection
  | ForwardScanDirection
deriving DecidableEq

/-- `find_indexkey_var` (pathkeys.c lines 561-584): look for a Var with
the wanted attribute number in the rel's targetlist; otherwise gin up a
Var for the rel's (single) relid.  The result is always a Var, returned
here as its (relid, attno) pair; the type fields fetched from the
catalog are determined by the pair and are not part of the model. -/
def find_indexkey_var (root : Query) (rel : RelOptInfo) (varattno : Nat) : Nat × Nat :=
  match rel.targetlist.find? (fun te =>
    match te.expr with
    | .var _ a => a == varattno
    | _ => false) with
  | some te =>
    match te.expr with
    | .var r a => (r, a)
    | _ => (0, 0)
  | none => (rel.relids.headD 0, varattno)

/-- The per-column loop of build_index_pathkeys for a normal
(non-functional) index: walk the zero-terminated indexkeys and the
InvalidOid-terminated ordering arrays in step; on a backward scan
substitute each sort operator with its commutator, stopping (break) at
the first operator without one. -/
def build_index_pathkeys_loop (root : Query) (rel : RelOptInfo)
    (scandir : ScanDirection) (get_commutator : Nat → Nat) :
    List Nat → List Nat → List (List PathKeyItem)
  | indexkey :: restkeys, ordop :: restops =>
    if indexkey = 0 ∨ ordop = 0 then []
    else
      let sortop := if scandir = .BackwardScanDirection then get_commutator ordop else ordop
      if sortop = 0 then []
      else
        let relvar := find_indexkey_var root rel indexkey
        make_canonical_pathkey root
          (makePathKeyItem (PKExpr.var relvar.1 relvar.2) sortop) ::
        build_index_pathkeys_loop root rel scandir get_commutator restkeys restops
  | _, _ => []

/-- `build_index_pathkeys` (pathkeys.c lines 474-550).  `get_commutator`
is the external catalog lookup (utils/cache/lsyscache.c, not under
src/); 0 plays InvalidOid.  An index with no declared ordering yields
NIL; a functional index produces a single position wrapping the whole
function call. -/
def build_index_pathkeys (root : Query) (rel : RelOptInfo) (index : IndexOptInfo)
    (scandir : ScanDirection) (get_commutator : Nat → Nat) : List (List PathKeyItem) :=
  if index.indexkeys.headD 0 = 0 ∨ index.ordering.headD 0 = 0 then []
  else if index.indproc ≠ 0 then
    let funcargs := (index.indexkeys.takeWhile (fun k => k ≠ 0)).map
      (find_indexkey_var root rel)
    let sortop0 := index.ordering.headD 0
    let sortop := if scandir = .BackwardScanDirection then get_commutator sortop0 else sortop0
    if sortop = 0 then []
    else
      [make_canonical_pathkey root
        (makePathKeyItem (PKExpr.funcexpr index.indproc funcargs) sortop)]
  else
    build_index_pathkeys_loop root rel scandir get_commutator
      index.indexkeys index.ordering

/-- `build_join_pathkeys` (pathkeys.c lines 604-618): since every pathkey
sublist starts out canonicalized, the join's pathkeys are exactly the
outer path's pathkeys; the other two arguments are unused. -/
def build_join_pathkeys (outer_pathkeys : List (List PathKeyItem))
    (join_rel_tlist : List TargetEntry)
    (equi_key_list : List (List PathKeyItem)) : List (List PathKeyItem) :=
  outer_pathkeys

/-! ### Base relation construction (relnode.c) -/

/-- `make_base_rel` (relnode.c lines 129-183).  `get_relation_info` and
`find_secondary_indexes` are the external catalog collaborators
(optimizer/util/plancat.c, not under src/), passed in as functions of the
table OID.  `rt_fetch` is 1-based; the source does not bounds-check it,
so an out-of-range relid is mapped to an error here (never reached under
the in-range hypotheses of the theorems below).  An unsupported
range-table-entry kind raises elog(ERROR). -/
def make_base_rel (get_relation_info : Nat → Bool × Nat × Nat)
    (find_secondary_indexes : Nat → List IndexOptInfo)
    (root : Query) (relid : Nat) : Except String RelOptInfo :=
  match root.rtable.get? (relid - 1) with
  | none => .error "rt_fetch: out of range"
  | some rte =>
    let rel : RelOptInfo :=
      { reloptkind := .RELOPT_BASEREL, relids := [relid], rows := 0, width := 0,
        targetlist := [], joininfo := [], indexlist := [], pages := 0, tuples := 0,
        rtekind := rte.rtekind }
    match rte.rtekind with
    | .RTE_RELATION =>
      let info := get_relation_info rte.relid
      .ok { rel with pages := info.2.1, tuples := info.2.2,
                     indexlist := if info.1 then find_secondary_indexes rte.relid else [] }
    | .RTE_SUBQUERY => .ok rel
    | .RTE_FUNCTION => .ok rel
    | _ => .error "make_base_rel: unsupported RTE kind"

/-- `build_base_rel` (relnode.c lines 47-77): elog(ERROR) if a rel whose
relids list starts with `relid` is already present in base_rel_list or
other_rel_list (every member of those lists has a single-element relids
list); otherwise make a new base rel and push it on base_rel_list. -/
def build_base_rel (get_relation_info : Nat → Bool × Nat × Nat)
    (find_secondary_indexes : Nat → List IndexOptInfo)
    (root : Query) (relid : Nat) : Except String Query :=
  if root.base_rel_list.any (fun rel => rel.relids.headD 0 == relid) then
    .error "build_base_rel: rel already exists"
  else if root.other_rel_list.any (fun rel => rel.relids.headD 0 == relid) then
    .error "build_base_rel: rel already exists as other rel"
  else
    (make_base_rel get_relation_info find_secondary_indexes root relid).map
      (fun rel => { root with base_rel_list := rel :: root.base_rel_list })

/-! ### Join relation construction (relnode.c) -/

inductive JoinType where
  | JOIN_INNER
  | JOIN_LEFT
  | JOIN_FULL
  | JOIN_RIGHT
deriving DecidableEq

/-- External collaborators used by build_join_rel:
`remove_redundant_join_clauses` (optimizer/util/restrictinfo.c, the
predicate simplifier) and `set_joinrel_size_estimates` (the cost
estimator, optimizer/path/costsize.c, returning the joinrel's row count
and width).  Both are outside src/; the theorems quantify over them. -/
structure Externals where
  remove_redundant_join_clauses : List RestrictInfo → JoinType → List RestrictInfo
  set_joinrel_size_estimates :
    RelOptInfo → RelOptInfo → RelOptInfo → JoinType → List RestrictInfo → Nat × Nat

/-- `find_join_rel` (relnode.c lines 227-241): first join rel whose
relids set-equals the given relid list, if any. -/
def find_join_rel (root : Query) (relids : List Nat) : Option RelOptInfo :=
  root.join_rel_list.find? (fun rel => sameseti rel.relids relids)

/-- `new_join_tlist` (relnode.c lines 386-404): renumber the entries of
an input targetlist consecutively starting at first_resdomno, keeping
the expressions. -/
def new_join_tlist : List TargetEntry → Nat → List TargetEntry
  | [], _ => []
  | xtl :: rest, resdomno =>
    { resdomno := resdomno, expr := xtl.expr } :: new_join_tlist rest (resdomno + 1)

/-- `subbuild_joinrel_restrictlist` (relnode.c lines 491-524): collect,
in joininfo order, the predicates of every JoinInfo entry whose awaited
relids are now a subset of the joinrel's relids. -/
def subbuild_joinrel_restrictlist (joinrel : RelOptInfo) :
    List JoinInfo → List RestrictInfo
  | [] => []
  | joininfo :: rest =>
    if is_subseti joininfo.unjoined_relids joinrel.relids then
      joininfo.jinfo_restrictinfo ++ subbuild_joinrel_restrictlist joinrel rest
    else
      subbuild_joinrel_restrictlist joinrel rest

/-- Modelled from the spec: `make_joininfo_node`
(optimizer/util/joininfo.c, not under src/).  Spec section 4.5 step 4:
find-or-create the outstanding-join-info entry of the node keyed (by set
equality) by the awaited relid set; a freshly created entry starts empty
and is prepended to the node's joininfo list.  This helper performs the
find-or-create and the caller's subsequent deduplicating union of the
predicates into the entry.  `update_joininfo` updates the first entry
with a set-equal key in place, if one exists. -/
def update_joininfo : List JoinInfo → List Nat → List RestrictInfo →
    Option (List JoinInfo)
  | [], _, _ => none
  | joininfo :: rest, relids, preds =>
    if sameseti relids joininfo.unjoined_relids then
      some ({ unjoined_relids := joininfo.unjoined_relids,
              jinfo_restrictinfo := set_union joininfo.jinfo_restrictinfo preds } :: rest)
    else
      (update_joininfo rest relids preds).map (fun rest2 => joininfo :: rest2)

/-- Modelled from the spec: find-or-create plus deduplicating union (see
`update_joininfo`). -/
def add_to_joininfo (joininfo_list : List JoinInfo) (relids : List Nat)
    (preds : List RestrictInfo) : List JoinInfo :=
  match update_joininfo joininfo_list relids preds with
  | some updated => updated
  | none =>
    { unjoined_relids := relids, jinfo_restrictinfo := set_union [] preds } ::
      joininfo_list

/-- `subbuild_joinrel_joinlist` (relnode.c lines 526-562): for each input
JoinInfo entry, recompute the awaited relids minus the joinrel's relids;
if nonempty, union the entry's predicates into the joinrel's JoinInfo
entry keyed by the reduced set (graduated entries are skipped). -/
def subbuild_joinrel_joinlist (joinrel : RelOptInfo) :
    List JoinInfo → RelOptInfo
  | [] => joinrel
  | joininfo :: rest =>
    if set_differencei joininfo.unjoined_relids joinrel.relids = [] then
      subbuild_joinrel_joinlist joinrel rest
    else
      subbuild_joinrel_joinlist
        { joinrel with
          joininfo := add_to_joininfo joinrel.joininfo
            (set_differencei joininfo.unjoined_relids joinrel.relids)
            joininfo.jinfo_restrictinfo }
        rest

/-- `build_joinrel_restrictlist` (relnode.c lines 448-480): graduated
clauses from both inputs, then the external redundant-clause
elimination. -/
def build_joinrel_restrictlist (ext : Externals) (joinrel outer_rel inner_rel : RelOptInfo)
    (jointype : JoinType) : List RestrictInfo :=
  ext.remove_redundant_join_clauses
    (subbuild_joinrel_restrictlist joinrel outer_rel.joininfo ++
     subbuild_joinrel_restrictlist joinrel inner_rel.joininfo)
    jointype

/-- `build_joinrel_joinlist` (relnode.c lines 482-489). -/
def build_joinrel_joinlist (joinrel outer_rel inner_rel : RelOptInfo) : RelOptInfo :=
  subbuild_joinrel_joinlist
    (subbuild_joinrel_joinlist joinrel outer_rel.joininfo)
    inner_rel.joininfo

/-- `build_join_rel` (relnode.c lines 259-365).  If a joinrel for the
relid set already exists, recompute only the restriction list for this
input pair and return the registered node with the context unchanged.
Otherwise build the node (concatenated renumbered targetlist, restrict
list, joininfo lists, size estimate) and push it on join_rel_list.
Returns (new context, joinrel, restrictlist). -/
def build_join_rel (ext : Externals) (root : Query) (joinrelids : List Nat)
    (outer_rel inner_rel : RelOptInfo) (jointype : JoinType) :
    Query × RelOptInfo × List RestrictInfo :=
  match find_join_rel root joinrelids with
  | some joinrel =>
    (root, joinrel, build_joinrel_restrictlist ext joinrel outer_rel inner_rel jointype)
  | none =>
    let new_outer_tlist := new_join_tlist outer_rel.targetlist 1
    let new_inner_tlist := new_join_tlist inner_rel.targetlist (new_outer_tlist.length + 1)
    let joinrel0 : RelOptInfo :=
      { reloptkind := .RELOPT_JOINREL, relids := joinrelids, rows := 0, width := 0,
        targetlist := new_outer_tlist ++ new_inner_tlist, joininfo := [],
        indexlist := [], pages := 0, tuples := 0, rtekind := .RTE_JOIN }
    let restrictlist := build_joinrel_restrictlist ext joinrel0 outer_rel inner_rel jointype
    let joinrel1 := build_joinrel_joinlist joinrel0 outer_rel inner_rel
    let sizes := ext.set_joinrel_size_estimates joinrel1 outer_rel inner_rel jointype restrictlist
    let joinrel2 := { joinrel1 with rows := sizes.1, width := sizes.2 }
    ({ root with join_rel_list := joinrel2 :: root.join_rel_list }, joinrel2, restrictlist)

/-- A joinrel-construction request, as issued by the external search
loop: the relid set together with the two input nodes and the join
type. -/
structure JoinBuildRequest where
  joinrelids : List Nat
  outer_rel : RelOptInfo
  inner_rel : RelOptInfo
  jointype : JoinType

/-- A whole sequence of build_join_rel calls within one planning
context, as performed by the external dynamic-programming search. -/
def run_join_builds (ext : Externals) (root : Query)
    (reqs : List JoinBuildRequest) : Query :=
  reqs.foldl
    (fun r q => (build_join_rel ext r q.joinrelids q.outer_rel q.inner_rel q.jointype).1)
    root

/-- The registry invariant of claim C1: no two distinct registered join
nodes share the same relid set. -/
def JoinRelIdsUnique (root : Query) : Prop :=
  root.join_rel_list.Pairwise (fun r1 r2 => ¬ sameseti r1.relids r2.relids = true)

/-! ### Concrete fixtures used by the witness theorems -/

/-- Trivial external collaborators: identity redundancy elimination and a
zero size estimate. -/
def extId : Externals :=
  { remove_redundant_join_clauses := fun l _ => l,
    set_joinrel_size_estimates := fun _ _ _ _ _ => (0, 0) }

/-- A clause whose two PathKeyItems coincide (an X = X clause). -/
def selfEqClause : RestrictInfo :=
  { clause_left := .var 1 1, clause_right := .var 1 1,
    left_sortop := 5, right_sortop := 5, mergejoinoperator := 7 }

/-- Numbered distinct PathKeyItems for scenario witnesses. -/
def pkItem (n : Nat) : PathKeyItem :=
  { key := .var 1 n, sortop := 100 + n }

/-- An equality clause between two keyed items, with both sides
mergejoinable (the mergejoin operator tag is irrelevant here). -/
def mkEqClause (x y : PathKeyItem) : RestrictInfo :=
  { clause_left := x.key, clause_right := y.key,
    left_sortop := x.sortop, right_sortop := y.sortop, mergejoinoperator := 1 }

/-- External union-find scenario of claim C2: record (a=b), (b=c), (d=e)
starting from an empty registry. -/
def equiScenario (a b c d e : PathKeyItem) : Query :=
  add_equijoined_keys
    (add_equijoined_keys
      (add_equijoined_keys emptyQuery (mkEqClause a b))
      (mkEqClause b c))
    (mkEqClause d e)

/-- Catalog stub: unindexed empty relation stats. -/
def statsNone : Nat → Bool × Nat × Nat := fun _ => (false, 0, 0)

/-- Catalog stub: no secondary indexes. -/
def indexesNone : Nat → List IndexOptInfo := fun _ => []

/-- A base rel fixture for index-pathkey witnesses: relid 1, empty
targetlist. -/
def relFixture : RelOptInfo :=
  { reloptkind := .RELOPT_BASEREL, relids := [1], rows := 0, width := 0,
    targetlist := [], joininfo := [], indexlist := [], pages := 0, tuples := 0,
    rtekind := .RTE_RELATION }

/-- Two-column index on attributes 1 and 2 ordered by operators 11 and
12 (zero-terminated arrays, as in the catalog representation). -/
def idxTwoCols : IndexOptInfo :=
  { indexkeys := [1, 2, 0], ordering := [11, 12, 0], indproc := 0 }

/-- Commutator table for the counterexample of claim C4: operator 11 has
commutator 21, operator 12 has none. -/
def commutPartial : Nat → Nat :=
  fun op => if op = 11 then 21 else 0

/-- Commutator table where both index operators have commutators. -/
def commutTotal : Nat → Nat :=
  fun op => if op = 11 then 21 else if op = 12 then 22 else 0

/-- Path fixtures for claim C6's witness: costs 10, 5 and 8, where only
the 5-cost and 8-cost paths carry the required ordering
[[pkItem 1]]. -/
def pathCost10 : Path := { pathkeys := [], startup_cost := 10, total_cost := 10 }

def pathCost5 : Path := { pathkeys := [[pkItem 1]], startup_cost := 5, total_cost := 5 }

def pathCost8 : Path := { pathkeys := [[pkItem 1], [pkItem 2]], startup_cost := 8, total_cost := 8 }

/-- A registry holding the single two-member class {pkItem 1, pkItem 2},
for the canonicalization witness. -/
def rootOneClass : Query :=
  { emptyQuery with equi_key_list := [[pkItem 1, pkItem 2]] }

/-- A query whose only range-table entry is a join entry: exercising
build_base_rel on it errors although no duplicate rel exists. -/
def rootJoinRte : Query :=
  { emptyQuery with rtable := [{ rtekind := .RTE_JOIN, relid := 0 }] }

/-- A query with one relation range-table entry and a base rel already
registered for relid 1. -/
def rootDupBase : Query :=
  { emptyQuery with
    rtable := [{ rtekind := .RTE_RELATION, relid := 50 }],
    base_rel_list := [relFixture] }

/-- A JoinInfo fixture: a predicate awaiting relids {2, 3}. -/
def joininfoAwait23 : JoinInfo :=
  { unjoined_relids := [2, 3],
    jinfo_restrictinfo := [mkEqClause (pkItem 1) (pkItem 2)] }

/-- A one-relid base rel for relid `n` carrying the given joininfo. -/
def baseRelWith (n : Nat) (ji : List JoinInfo) : RelOptInfo :=
  { reloptkind := .RELOPT_BASEREL, relids := [n], rows := 0, width := 0,
    targetlist := [], joininfo := ji, indexlist := [], pages := 0, tuples := 0,
    rtekind := .RTE_RELATION }

/-- A join rel over relids {1, 2} with empty joininfo. -/
def joinRel12 : RelOptInfo :=
  { reloptkind := .RELOPT_JOINREL, relids := [1, 2], rows := 0, width := 0,
    targetlist := [], joininfo := [], indexlist := [], pages := 0, tuples := 0,
    rtekind := .RTE_JOIN }

/-! ### Helper lemmas on the list-set primitives -/

theorem member_iff_mem {α : Type} [DecidableEq α] (x : α) (l : List α) :
    member x l = true ↔ x ∈ l := by
  induction l with
  | nil => simp [member]
  | cons y t ih =>
    by_cases h : x = y
    · simp [member, h]
    · simp [member, h, ih]

theorem mem_set_union {α : Type} [DecidableEq α] (x : α) (l1 l2 : List α) :
    x ∈ set_union l1 l2 ↔ x ∈ l1 ∨ x ∈ l2 := by
  induction l2 generalizing l1 with
  | nil => simp [set_union]
  | cons y t ih =>
    show x ∈ set_union (if member y l1 then l1 else l1 ++ [y]) t ↔ _
    by_cases h : member y l1
    · rw [if_pos h, ih]
      have hy : y ∈ l1 := (member_iff_mem y l1).mp h
      constructor
      · rintro (h1 | h2)
        · exact Or.inl h1
        · exact Or.inr (List.mem_cons_of_mem y h2)
      · rintro (h1 | h2)
        · exact Or.inl h1
        · rcases List.mem_cons.mp h2 with rfl | h3
          · exact Or.inl hy
          · exact Or.inr h3
    · rw [if_neg h, ih]
      simp [List.mem_append, List.mem_cons, or_assoc]

theorem is_subseti_iff (l1 l2 : List Nat) :
    is_subseti l1 l2 = true ↔ ∀ x ∈ l1, x ∈ l2 := by
  simp [is_subseti, intMember, List.all_eq_true, member_iff_mem]

theorem sameseti_iff (l1 l2 : List Nat) :
    sameseti l1 l2 = true ↔ (∀ x ∈ l1, x ∈ l2) ∧ ∀ x ∈ l2, x ∈ l1 := by
  simp [sameseti, Bool.and_eq_true, is_subseti_iff]

theorem sameseti_refl (l : List Nat) : sameseti l l = true := by
  rw [sameseti_iff]; exact ⟨fun x h => h, fun x h => h⟩

theorem sameseti_symm {l1 l2 : List Nat} (h : sameseti l1 l2 = true) :
    sameseti l2 l1 = true := by
  rw [sameseti_iff] at h ⊢; exact ⟨h.2, h.1⟩

theorem sameseti_trans {l1 l2 l3 : List Nat} (h1 : sameseti l1 l2 = true)
    (h2 : sameseti l2 l3 = true) : sameseti l1 l3 = true := by
  rw [sameseti_iff] at h1 h2 ⊢
  exact ⟨fun x h => h2.1 x (h1.1 x h), fun x h => h1.2 x (h2.2 x h)⟩

theorem set_differencei_eq_nil_iff (l1 l2 : List Nat) :
    set_differencei l1 l2 = [] ↔ is_subseti l1 l2 = true := by
  simp [set_differencei, List.filter_eq_nil_iff, is_subseti_iff, intMember,
    member_iff_mem]

theorem mem_set_differencei (x : Nat) (l1 l2 : List Nat) :
    x ∈ set_differencei l1 l2 ↔ x ∈ l1 ∧ x ∉ l2 := by
  simp only [set_differencei, List.mem_filter, Bool.not_eq_true', intMember,
    ← Bool.not_eq_true (member x l2), member_iff_mem]

theorem makePathKeyItem_eta (x : PathKeyItem) : makePathKeyItem x.key x.sortop = x :=
  rfl

/-- In a registry whose classes are pairwise disjoint, the first class
found for a member of a registered class is that class itself. -/
theorem find_class_of_mem (l : List (List PathKeyItem)) (p : List PathKeyItem)
    (x : PathKeyItem)
    (hdisj : l.Pairwise (fun c1 c2 => ∀ y ∈ c1, y ∉ c2))
    (hp : p ∈ l) (hx : x ∈ p) :
    l.find? (fun curset => member x curset) = some p := by
  induction l with
  | nil => exact absurd hp (List.not_mem_nil p)
  | cons c rest ih =>
    rcases List.pairwise_cons.mp hdisj with ⟨hhead, htail⟩
    rcases List.mem_cons.mp hp with rfl | hprest
    · have hxp : member x p = true := (member_iff_mem x p).mpr hx
      simp [List.find?_cons, hxp]
    · have hxc : member x c = false := by
        cases hmc : member x c with
        | false => rfl
        | true =>
          have hxmem : x ∈ c := (member_iff_mem x c).mp hmc
          exact absurd hx (hhead p hprest x hxmem)
      simp [List.find?_cons, hxc, ih htail hprest]

/-- A key belonging to no registry class resolves to a fresh
singleton. -/
theorem make_canonical_pathkey_singleton (root : Query) (x : PathKeyItem)
    (hx : ∀ c ∈ root.equi_key_list, x ∉ c) :
    make_canonical_pathkey root x = [x] := by
  unfold make_canonical_pathkey
  have : root.equi_key_list.find? (fun curset => member x curset) = none := by
    rw [List.find?_eq_none]
    intro c hc
    simp only [Bool.not_eq_true, ← Bool.not_eq_true (member x c), member_iff_mem]
    exact hx c hc
  rw [this]

/-! ### Claim C10 -/

/-- Claim C10: build_join_pathkeys is the identity on its first
argument — for every outer_pathkeys, join_rel_tlist and equi_key_list it
returns outer_pathkeys itself, adding no inner-side keys and consulting
neither of the other two arguments, so the sort order attributed to a
merge or nestloop join result is precisely the outer path's canonical
pathkey list. -/
theorem build_join_pathkeys_is_outer (outer_pathkeys : List (List PathKeyItem))
    (join_rel_tlist : List TargetEntry) (equi_key_list : List (List PathKeyItem)) :
    build_join_pathkeys outer_pathkeys join_rel_tlist equi_key_list = outer_pathkeys :=
  rfl

/-! ### Claim C8 -/

/-- Claim C8: self-equality is a no-op — whenever the left and right
PathKeyItems of the clause (operand expression plus sortop) are
structurally equal, add_equijoined_keys leaves root->equi_key_list (and
the whole planning context) exactly as it was. -/
theorem add_equijoined_keys_self_equality_noop (root : Query) (ri : RestrictInfo)
    (h : makePathKeyItem ri.clause_left ri.left_sortop =
         makePathKeyItem ri.clause_right ri.right_sortop) :
    add_equijoined_keys root ri = root := by
  unfold add_equijoined_keys
  rw [if_pos h]

theorem add_equijoined_keys_self_equality_noop_witness :
    makePathKeyItem selfEqClause.clause_left selfEqClause.left_sortop =
      makePathKeyItem selfEqClause.clause_right selfEqClause.right_sortop ∧
    add_equijoined_keys emptyQuery selfEqClause = emptyQuery :=
  ⟨by decide, add_equijoined_keys_self_equality_noop emptyQuery selfEqClause (by decide)⟩

/-! ### Claim C5 -/

/-- Claim C5: comparator reflexivity, prefix and mismatch laws — for
every canonical pathkey list X, compare_pathkeys X X = PATHKEYS_EQUAL;
extending X by a nonempty tail yields PATHKEYS_BETTER2 (and never
PATHKEYS_BETTER1); two distinct one-position lists are
PATHKEYS_DIFFERENT; and any position whose two sublists differ decides
PATHKEYS_DIFFERENT. -/
theorem compare_pathkeys_laws :
    (∀ X : List (List PathKeyItem), compare_pathkeys X X = .PATHKEYS_EQUAL) ∧
    (∀ X extra : List (List PathKeyItem), extra ≠ [] →
      compare_pathkeys X (X ++ extra) = .PATHKEYS_BETTER2 ∧
      compare_pathkeys X (X ++ extra) ≠ .PATHKEYS_BETTER1) ∧
    (∀ A B : List PathKeyItem, A ≠ B →
      compare_pathkeys [A] [B] = .PATHKEYS_DIFFERENT) ∧
    (∀ keys1 keys2 : List (List PathKeyItem), ∀ i : Nat,
      ∀ h1 : i < keys1.length, ∀ h2 : i < keys2.length,
      keys1.get ⟨i, h1⟩ ≠ keys2.get ⟨i, h2⟩ →
      compare_pathkeys keys1 keys2 = .PATHKEYS_DIFFERENT) := by
  refine ⟨?_, ?_, ?_, ?_⟩
  · intro X
    induction X with
    | nil => rfl
    | cons s rest ih => simpa [compare_pathkeys] using ih
  · intro X extra hne
    induction X with
    | nil =>
      cases extra with
      | nil => exact absurd rfl hne
      | cons s rest => exact ⟨rfl, by simp [compare_pathkeys]⟩
    | cons s rest ih => simpa [compare_pathkeys] using ih
  · intro A B hne
    simp [compare_pathkeys, hne]
  · intro keys1
    induction keys1 with
    | nil => intro keys2 i h1; exact absurd h1 (Nat.not_lt_zero i)
    | cons s1 rest1 ih =>
      intro keys2 i h1 h2 hne
      cases keys2 with
      | nil => exact absurd h2 (Nat.not_lt_zero i)
      | cons s2 rest2 =>
        by_cases heq : s1 = s2
        · cases i with
          | zero => exact absurd heq hne
          | succ j =>
            have := ih rest2 j (Nat.lt_of_succ_lt_succ h1) (Nat.lt_of_succ_lt_succ h2) hne
            simpa [compare_pathkeys, heq] using this
        · simp [compare_pathkeys, heq]

/-! ### Claim C2 -/

/-- Claim C2: union-find closure — starting from an empty equi_key_list,
after recording the mergejoinable equalities (a=b), (b=c), (d=e) with
six pairwise distinct keys, make_canonical_pathkey resolves a, b and c
to the one registered three-element class holding their transitive
closure, resolves d and e to the registered class holding d and e, and
resolves the unrecorded key f to a fresh singleton that is not inserted
into the registry. -/
theorem add_equijoined_keys_union_find_closure
    (a b c d e f : PathKeyItem)
    (hab : a ≠ b) (hac : a ≠ c) (had : a ≠ d) (hae : a ≠ e) (haf : a ≠ f)
    (hbc : b ≠ c) (hbd : b ≠ d) (hbe : b ≠ e) (hbf : b ≠ f)
    (hcd : c ≠ d) (hce : c ≠ e) (hcf : c ≠ f)
    (hde : d ≠ e) (hdf : d ≠ f) (hef : e ≠ f) :
    (equiScenario a b c d e).equi_key_list = [[d, e], [b, c, a]] ∧
    make_canonical_pathkey (equiScenario a b c d e) a = [b, c, a] ∧
    make_canonical_pathkey (equiScenario a b c d e) b = [b, c, a] ∧
    make_canonical_pathkey (equiScenario a b c d e) c = [b, c, a] ∧
    [b, c, a] ∈ (equiScenario a b c d e).equi_key_list ∧
    make_canonical_pathkey (equiScenario a b c d e) d = [d, e] ∧
    make_canonical_pathkey (equiScenario a b c d e) e = [d, e] ∧
    [d, e] ∈ (equiScenario a b c d e).equi_key_list ∧
    make_canonical_pathkey (equiScenario a b c d e) f = [f] ∧
    [f] ∉ (equiScenario a b c d e).equi_key_list := by
  have hba := Ne.symm hab
  have hca := Ne.symm hac
  have hcb := Ne.symm hbc
  have hda := Ne.symm had
  have hdb := Ne.symm hbd
  have hdc := Ne.symm hcd
  have hea := Ne.symm hae
  have heb := Ne.symm hbe
  have hec := Ne.symm hce
  have hed := Ne.symm hde
  have hfa := Ne.symm haf
  have hfb := Ne.symm hbf
  have hfc := Ne.symm hcf
  have hfd := Ne.symm hdf
  have hfe := Ne.symm hef
  have h1 : (add_equijoined_keys emptyQuery (mkEqClause a b)).equi_key_list = [[a, b]] := by
    simp [add_equijoined_keys, mkEqClause, makePathKeyItem_eta, hab, emptyQuery]
  have step2 : ∀ root : Query, root.equi_key_list = [[a, b]] →
      (add_equijoined_keys root (mkEqClause b c)).equi_key_list = [[b, c, a]] := by
    intro root hr
    simp [add_equijoined_keys, mkEqClause, makePathKeyItem_eta, hr, member,
      LispUnion, set_union, hbc, hba, hab, hac, hca, hcb]
  have step3 : ∀ root : Query, root.equi_key_list = [[b, c, a]] →
      (add_equijoined_keys root (mkEqClause d e)).equi_key_list = [[d, e], [b, c, a]] := by
    intro root hr
    simp [add_equijoined_keys, mkEqClause, makePathKeyItem_eta, hr, member,
      LispUnion, set_union, hde, hdb, hdc, hda, heb, hec, hea]
  have h3 : (equiScenario a b c d e).equi_key_list = [[d, e], [b, c, a]] :=
    step3 _ (step2 _ h1)
  refine ⟨h3, ?_, ?_, ?_, ?_, ?_, ?_, ?_, ?_, ?_⟩
  · simp [make_canonical_pathkey, h3, member, had, hae, hab, hac]
  · simp [make_canonical_pathkey, h3, member, hbd, hbe]
  · simp [make_canonical_pathkey, h3, member, hcd, hce, hcb]
  · simp [h3]
  · simp [make_canonical_pathkey, h3, member]
  · simp [make_canonical_pathkey, h3, member, hed]
  · simp [h3]
  · simp [make_canonical_pathkey, h3, member, hfd, hfe, hfb, hfc, hfa]
  · simp [h3, hfd, hfb]

theorem add_equijoined_keys_union_find_closure_witness :
    pkItem 1 ≠ pkItem 2 ∧ pkItem 4 ≠ pkItem 5 ∧
    (equiScenario (pkItem 1) (pkItem 2) (pkItem 3) (pkItem 4) (pkItem 5)).equi_key_list =
      [[pkItem 4, pkItem 5], [pkItem 2, pkItem 3, pkItem 1]] ∧
    make_canonical_pathkey
      (equiScenario (pkItem 1) (pkItem 2) (pkItem 3) (pkItem 4) (pkItem 5)) (pkItem 1) =
      [pkItem 2, pkItem 3, pkItem 1] ∧
    make_canonical_pathkey
      (equiScenario (pkItem 1) (pkItem 2) (pkItem 3) (pkItem 4) (pkItem 5)) (pkItem 6) =
      [pkItem 6] := by
  have h := add_equijoined_keys_union_find_closure
    (pkItem 1) (pkItem 2) (pkItem 3) (pkItem 4) (pkItem 5) (pkItem 6)
    (by decide) (by decide) (by decide) (by decide) (by decide)
    (by decide) (by decide) (by decide) (by decide)
    (by decide) (by decide) (by decide)
    (by decide) (by decide) (by decide)
  exact ⟨by decide, by decide, h.1, h.2.1, h.2.2.2.2.2.2.2.2.1⟩

theorem compare_pathkeys_laws_witness :
    ([[pkItem 1]] : List (List PathKeyItem)) ≠ [] ∧
    ([pkItem 1] : List PathKeyItem) ≠ [pkItem 2] ∧
    compare_pathkeys [[pkItem 1]] [[pkItem 1]] = .PATHKEYS_EQUAL ∧
    compare_pathkeys [[pkItem 1]] ([[pkItem 1]] ++ [[pkItem 2]]) = .PATHKEYS_BETTER2 ∧
    compare_pathkeys [[pkItem 1]] [[pkItem 2]] = .PATHKEYS_DIFFERENT :=
  ⟨by decide, by decide,
   compare_pathkeys_laws.1 [[pkItem 1]],
   (compare_pathkeys_laws.2.1 [[pkItem 1]] [[pkItem 2]] (by decide)).1,
   compare_pathkeys_laws.2.2.1 [pkItem 1] [pkItem 2] (by decide)⟩

/-! ### Claim C7 -/

/-- Claim C7: canonicalization idempotence — on a pathkey list that is
already canonical (each position is either a registered equivalence
class or a singleton whose key belongs to no registry class, the
registry's classes being pairwise disjoint), canonicalize_pathkeys
returns the very same list: same length, registry-backed positions
resolved to the same class references; hence a second application
returns a result structurally equal to the first. -/
theorem canonicalize_pathkeys_idempotent (root : Query)
    (pathkeys : List (List PathKeyItem))
    (hdisj : root.equi_key_list.Pairwise (fun c1 c2 => ∀ y ∈ c1, y ∉ c2))
    (hcanon : ∀ p ∈ pathkeys,
      (p ∈ root.equi_key_list ∧ p ≠ []) ∨
      (∃ k, p = [k] ∧ ∀ c ∈ root.equi_key_list, k ∉ c)) :
    canonicalize_pathkeys root pathkeys = pathkeys ∧
    canonicalize_pathkeys root (canonicalize_pathkeys root pathkeys) =
      canonicalize_pathkeys root pathkeys := by
  have hpos : ∀ p ∈ pathkeys,
      (match p with
       | item :: _ => make_canonical_pathkey root item
       | [] => []) = p := by
    intro p hp
    rcases hcanon p hp with ⟨hreg, hne⟩ | ⟨k, rfl, hk⟩
    · cases p with
      | nil => exact absurd rfl hne
      | cons item rest =>
        show make_canonical_pathkey root item = item :: rest
        unfold make_canonical_pathkey
        rw [find_class_of_mem root.equi_key_list (item :: rest) item hdisj hreg
          (List.mem_cons_self item rest)]
    · show make_canonical_pathkey root k = [k]
      exact make_canonical_pathkey_singleton root k hk
  have h1 : canonicalize_pathkeys root pathkeys = pathkeys := by
    unfold canonicalize_pathkeys
    induction pathkeys with
    | nil => rfl
    | cons p rest ih =>
      simp only [List.map_cons]
      rw [hpos p (List.mem_cons_self p rest),
        ih (fun q hq => hcanon q (List.mem_cons_of_mem p hq))
           (fun q hq => hpos q (List.mem_cons_of_mem p hq))]
  exact ⟨h1, by rw [h1]; exact h1⟩

theorem canonicalize_pathkeys_idempotent_witness :
    rootOneClass.equi_key_list.Pairwise (fun c1 c2 => ∀ y ∈ c1, y ∉ c2) ∧
    canonicalize_pathkeys rootOneClass [[pkItem 1, pkItem 2], [pkItem 3]] =
      [[pkItem 1, pkItem 2], [pkItem 3]] := by
  have h := canonicalize_pathkeys_idempotent rootOneClass
    [[pkItem 1, pkItem 2], [pkItem 3]]
    (by decide)
    (by
      intro p hp
      rcases List.mem_cons.mp hp with rfl | hp2
      · exact Or.inl ⟨by decide, by decide⟩
      · rcases List.mem_cons.mp hp2 with rfl | hp3
        · exact Or.inr ⟨pkItem 3, rfl, by decide⟩
        · exact absurd hp3 (List.not_mem_nil p))
  exact ⟨by decide, h.1⟩

/-! ### Claim C6 -/

theorem compare_path_costs_nonpos_iff (p q : Path) (criterion : CostSelector) :
    compare_path_costs p q criterion ≤ 0 ↔ pathCost criterion p ≤ pathCost criterion q := by
  unfold compare_path_costs
  split_ifs with h1 h2
  · simp; omega
  · simp; omega
  · simp; omega

/-- Folding the selection loop from a satisfying current best yields a
satisfying best that is no more expensive than the start and than any
satisfying candidate scanned. -/
theorem cheapest_fold_from_some (pathkeys : List (List PathKeyItem))
    (criterion : CostSelector) :
    ∀ (paths : List Path) (m : Path),
      pathkeys_contained_in pathkeys m.pathkeys = true →
      ∃ mf, List.foldl (cheapest_step pathkeys criterion) (some m) paths = some mf ∧
        pathkeys_contained_in pathkeys mf.pathkeys = true ∧
        pathCost criterion mf ≤ pathCost criterion m ∧
        (mf = m ∨ mf ∈ paths) ∧
        ∀ q ∈ paths, pathkeys_contained_in pathkeys q.pathkeys = true →
          pathCost criterion mf ≤ pathCost criterion q := by
  intro paths
  induction paths with
  | nil =>
    intro m hm
    exact ⟨m, rfl, hm, Nat.le_refl _, Or.inl rfl, by intro q hq; cases hq⟩
  | cons p rest ih =>
    intro m hm
    show ∃ mf, List.foldl _ (cheapest_step pathkeys criterion (some m) p) rest = some mf ∧ _
    by_cases hcmp : compare_path_costs m p criterion ≤ 0
    · have hstep : cheapest_step pathkeys criterion (some m) p = some m := by
        simp only [cheapest_step]; rw [if_pos hcmp]
      rw [hstep]
      rcases ih m hm with ⟨mf, hfold, hcont, hcost, hmem, hmin⟩
      refine ⟨mf, hfold, hcont, hcost, ?_, ?_⟩
      · rcases hmem with rfl | hin
        · exact Or.inl rfl
        · exact Or.inr (List.mem_cons_of_mem p hin)
      · intro q hq hqc
        rcases List.mem_cons.mp hq with rfl | hqrest
        · exact Nat.le_trans hcost ((compare_path_costs_nonpos_iff m q criterion).mp hcmp)
        · exact hmin q hqrest hqc
    · by_cases hpc : pathkeys_contained_in pathkeys p.pathkeys = true
      · have hstep : cheapest_step pathkeys criterion (some m) p = some p := by
          simp only [cheapest_step]; rw [if_neg hcmp, if_pos hpc]
        rw [hstep]
        rcases ih p hpc with ⟨mf, hfold, hcont, hcost, hmem, hmin⟩
        have hplt : pathCost criterion p ≤ pathCost criterion m := by
          rcases Nat.lt_or_ge (pathCost criterion m) (pathCost criterion p) with hlt | hge
          · exact absurd ((compare_path_costs_nonpos_iff m p criterion).mpr
              (Nat.le_of_lt hlt)) hcmp
          · exact hge
        refine ⟨mf, hfold, hcont, Nat.le_trans hcost hplt, ?_, ?_⟩
        · rcases hmem with rfl | hin
          · exact Or.inr (List.mem_cons_self mf rest)
          · exact Or.inr (List.mem_cons_of_mem p hin)
        · intro q hq hqc
          rcases List.mem_cons.mp hq with rfl | hqrest
          · exact hcost
          · exact hmin q hqrest hqc
      · have hstep : cheapest_step pathkeys criterion (some m) p = some m := by
          simp only [cheapest_step]
          rw [if_neg hcmp, if_neg (by simpa using hpc)]
        rw [hstep]
        rcases ih m hm with ⟨mf, hfold, hcont, hcost, hmem, hmin⟩
        refine ⟨mf, hfold, hcont, hcost, ?_, ?_⟩
        · rcases hmem with rfl | hin
          · exact Or.inl rfl
          · exact Or.inr (List.mem_cons_of_mem p hin)
        · intro q hq hqc
          rcases List.mem_cons.mp hq with rfl | hqrest
          · exact absurd hqc (by simpa using hpc)
          · exact hmin q hqrest hqc

/-- If no scanned candidate satisfies the ordering, the loop never picks
one. -/
theorem cheapest_fold_none (pathkeys : List (List PathKeyItem))
    (criterion : CostSelector) :
    ∀ paths : List Path,
      (∀ p ∈ paths, pathkeys_contained_in pathkeys p.pathkeys = false) →
      List.foldl (cheapest_step pathkeys criterion) none paths = none := by
  intro paths
  induction paths with
  | nil => intro _; rfl
  | cons p rest ih =>
    intro hall
    have hp : pathkeys_contained_in pathkeys p.pathkeys = false :=
      hall p (List.mem_cons_self p rest)
    show List.foldl _ (cheapest_step pathkeys criterion none p) rest = none
    have hstep : cheapest_step pathkeys criterion none p = none := by
      simp only [cheapest_step]; rw [if_neg (by simp [hp])]
    rw [hstep]
    exact ih (fun q hq => hall q (List.mem_cons_of_mem p hq))

/-- The full behavioral description of get_cheapest_path_for_pathkeys as
a match on its result. -/
theorem get_cheapest_spec (paths : List Path) (pathkeys : List (List PathKeyItem))
    (criterion : CostSelector) :
    match get_cheapest_path_for_pathkeys paths pathkeys criterion with
    | none => ∀ p ∈ paths, pathkeys_contained_in pathkeys p.pathkeys = false
    | some m => m ∈ paths ∧ pathkeys_contained_in pathkeys m.pathkeys = true ∧
        ∀ q ∈ paths, pathkeys_contained_in pathkeys q.pathkeys = true →
          pathCost criterion m ≤ pathCost criterion q := by
  induction paths with
  | nil => intro p hp; cases hp
  | cons p rest ih =>
    show match List.foldl _ (cheapest_step pathkeys criterion none p) rest with
      | none => _ | some m => _
    by_cases hpc : pathkeys_contained_in pathkeys p.pathkeys = true
    · have hstep : cheapest_step pathkeys criterion none p = some p := by
        simp only [cheapest_step]; rw [if_pos hpc]
      rw [hstep]
      rcases cheapest_fold_from_some pathkeys criterion rest p hpc with
        ⟨mf, hfold, hcont, hcost, hmem, hmin⟩
      rw [hfold]
      refine ⟨?_, hcont, ?_⟩
      · rcases hmem with rfl | hin
        · exact List.mem_cons_self mf rest
        · exact List.mem_cons_of_mem p hin
      · intro q hq hqc
        rcases List.mem_cons.mp hq with rfl | hqrest
        · exact hcost
        · exact hmin q hqrest hqc
    · have hstep : cheapest_step pathkeys criterion none p = none := by
        simp only [cheapest_step]; rw [if_neg hpc]
      rw [hstep]
      have hrest := ih
      unfold get_cheapest_path_for_pathkeys at hrest
      cases hres : List.foldl (cheapest_step pathkeys criterion) none rest with
      | none =>
        rw [hres] at hrest
        intro q hq
        rcases List.mem_cons.mp hq with rfl | hqrest
        · simpa using hpc
        · exact hrest q hqrest
      | some m =>
        rw [hres] at hrest
        refine ⟨List.mem_cons_of_mem p hrest.1, hrest.2.1, ?_⟩
        intro q hq hqc
        rcases List.mem_cons.mp hq with rfl | hqrest
        · exact absurd hqc (by simpa using hpc)
        · exact hrest.2.2 q hqrest hqc

/-- Claim C6: cheapest-satisfying selection — for every candidate list,
required canonical ordering and cost criterion,
get_cheapest_path_for_pathkeys returns none exactly when no candidate's
pathkeys contain the required ordering; any returned path is a candidate
that satisfies the ordering and whose criterion cost is less than or
equal to every other satisfying candidate's; and a scan step keeps the
current best whenever the newcomer is not strictly cheaper or does not
satisfy the ordering. -/
theorem get_cheapest_path_for_pathkeys_correct (paths : List Path)
    (pathkeys : List (List PathKeyItem)) (criterion : CostSelector) :
    (get_cheapest_path_for_pathkeys paths pathkeys criterion = none ↔
      ∀ p ∈ paths, pathkeys_contained_in pathkeys p.pathkeys = false) ∧
    (∀ m, get_cheapest_path_for_pathkeys paths pathkeys criterion = some m →
      m ∈ paths ∧ pathkeys_contained_in pathkeys m.pathkeys = true ∧
      ∀ q ∈ paths, pathkeys_contained_in pathkeys q.pathkeys = true →
        pathCost criterion m ≤ pathCost criterion q) ∧
    (∀ m p, (compare_path_costs m p criterion ≤ 0 ∨
        pathkeys_contained_in pathkeys p.pathkeys = false) →
      cheapest_step pathkeys criterion (some m) p = some m) := by
  have hspec := get_cheapest_spec paths pathkeys criterion
  refine ⟨⟨?_, ?_⟩, ?_, ?_⟩
  · intro hnone
    rw [hnone] at hspec
    exact hspec
  · intro hall
    exact cheapest_fold_none pathkeys criterion paths hall
  · intro m hm
    rw [hm] at hspec
    exact hspec
  · intro m p h
    rcases h with hcmp | hnc
    · simp only [cheapest_step]; rw [if_pos hcmp]
    · by_cases hcmp : compare_path_costs m p criterion ≤ 0
      · simp only [cheapest_step]; rw [if_pos hcmp]
      · simp only [cheapest_step]; rw [if_neg hcmp, if_neg (by simp [hnc])]

theorem get_cheapest_path_for_pathkeys_correct_witness :
    get_cheapest_path_for_pathkeys [pathCost10, pathCost5, pathCost8]
      [[pkItem 1]] .TOTAL_COST = some pathCost5 ∧
    (pathCost5 ∈ [pathCost10, pathCost5, pathCost8] ∧
     pathkeys_contained_in [[pkItem 1]] pathCost5.pathkeys = true ∧
     ∀ q ∈ [pathCost10, pathCost5, pathCost8],
       pathkeys_contained_in [[pkItem 1]] q.pathkeys = true →
       pathCost .TOTAL_COST pathCost5 ≤ pathCost .TOTAL_COST q) :=
  ⟨by decide,
   (get_cheapest_path_for_pathkeys_correct [pathCost10, pathCost5, pathCost8]
     [[pkItem 1]] .TOTAL_COST).2.1 pathCost5 (by decide)⟩

/-! ### Claim C4 -/

/-- Counterexample to claim C4 as stated: on a two-column index whose
first ordering operator (11) has a commutator but whose second (12) has
none, a backward scan does NOT return an empty pathkeys list — the loop
breaks at the second column and returns the one-position truncation. -/
theorem build_index_pathkeys_backward_counterexample :
    commutPartial 12 = 0 ∧
    idxTwoCols.ordering = [11, 12, 0] ∧
    idxTwoCols.indproc = 0 ∧
    build_index_pathkeys emptyQuery relFixture idxTwoCols
      .BackwardScanDirection commutPartial =
      [[{ key := PKExpr.var 1 1, sortop := 21 }]] ∧
    build_index_pathkeys emptyQuery relFixture idxTwoCols
      .BackwardScanDirection commutPartial ≠ [] := by
  decide

/-- The per-column loop, on a backward scan, computes exactly the
commutator-substituted pathkeys of the longest usable column span:
columns are taken while the key and operator sentinels have not been hit
and the operator has a commutator. -/
theorem build_index_pathkeys_loop_backward (root : Query) (rel : RelOptInfo)
    (get_commutator : Nat → Nat) :
    ∀ indexkeys ordering : List Nat,
      build_index_pathkeys_loop root rel .BackwardScanDirection get_commutator
        indexkeys ordering =
      ((indexkeys.zip ordering).takeWhile
        (fun p => !(p.1 == 0) && !(p.2 == 0) && !(get_commutator p.2 == 0))).map
        (fun p => make_canonical_pathkey root
          (makePathKeyItem
            (PKExpr.var (find_indexkey_var root rel p.1).1
              (find_indexkey_var root rel p.1).2)
            (get_commutator p.2))) := by
  intro indexkeys
  induction indexkeys with
  | nil => intro ordering; rfl
  | cons k ks ih =>
    intro ordering
    cases ordering with
    | nil => rfl
    | cons o os =>
      by_cases h0 : k = 0 ∨ o = 0
      · have hpred : (!(k == 0) && !(o == 0) && !(get_commutator o == 0)) = false := by
          rcases h0 with rfl | rfl <;> simp
        simp [build_index_pathkeys_loop, h0, List.takeWhile, hpred]
      · by_cases hc : get_commutator o = 0
        · have hpred : (!(k == 0) && !(o == 0) && !(get_commutator o == 0)) = false := by
            simp [hc]
          simp [build_index_pathkeys_loop, h0, hc, List.takeWhile, hpred]
        · have hk : ¬ k = 0 := fun h => h0 (Or.inl h)
          have ho : ¬ o = 0 := fun h => h0 (Or.inr h)
          have hpred : (!(k == 0) && !(o == 0) && !(get_commutator o == 0)) = true := by
            simp [hk, ho, hc]
          simp [build_index_pathkeys_loop, h0, hc, List.takeWhile, hpred, ih os,
            List.zip]

/-- Claim C4 (amended): backward-scan ordering construction — an index
with no declared ordering yields NIL for every scan direction; on a
backward scan of a normal index each usable column's operator is
substituted with its commutator, and the pathkeys are truncated at the
first column whose operator lacks a commutator (in particular NIL when
that is the first column), with no exception raised; a functional index
whose (single) ordering operator lacks a commutator yields NIL on a
backward scan. -/
theorem build_index_pathkeys_backward (root : Query) (rel : RelOptInfo)
    (index : IndexOptInfo) (get_commutator : Nat → Nat) :
    (∀ scandir : ScanDirection,
      index.indexkeys.headD 0 = 0 ∨ index.ordering.headD 0 = 0 →
      build_index_pathkeys root rel index scandir get_commutator = []) ∧
    (index.indproc = 0 →
      build_index_pathkeys root rel index .BackwardScanDirection get_commutator =
      ((index.indexkeys.zip index.ordering).takeWhile
        (fun p => !(p.1 == 0) && !(p.2 == 0) && !(get_commutator p.2 == 0))).map
        (fun p => make_canonical_pathkey root
          (makePathKeyItem
            (PKExpr.var (find_indexkey_var root rel p.1).1
              (find_indexkey_var root rel p.1).2)
            (get_commutator p.2)))) ∧
    (index.indproc ≠ 0 →
      get_commutator (index.ordering.headD 0) = 0 →
      build_index_pathkeys root rel index .BackwardScanDirection get_commutator = []) := by
  refine ⟨?_, ?_, ?_⟩
  · intro scandir hguard
    unfold build_index_pathkeys
    rw [if_pos hguard]
  · intro hproc
    unfold build_index_pathkeys
    by_cases hguard : index.indexkeys.headD 0 = 0 ∨ index.ordering.headD 0 = 0
    · rw [if_pos hguard]
      cases hik : index.indexkeys with
      | nil => simp
      | cons k ks =>
        cases hord : index.ordering with
        | nil => simp
        | cons o os =>
          rw [hik, hord] at hguard
          have hpred : (!(k == 0) && !(o == 0) && !(get_commutator o == 0)) = false := by
            rcases hguard with h | h <;> simp [List.headD] at h <;> simp [h]
          simp [List.takeWhile, hpred]
    · rw [if_neg hguard, if_neg (by simp [hproc])]
      exact build_index_pathkeys_loop_backward root rel get_commutator
        index.indexkeys index.ordering
  · intro hproc hcomm
    unfold build_index_pathkeys
    by_cases hguard : index.indexkeys.headD 0 = 0 ∨ index.ordering.headD 0 = 0
    · rw [if_pos hguard]
    · rw [if_neg hguard, if_pos hproc]
      have hcomm2 : get_commutator (index.ordering.head?.getD 0) = 0 := by
        simpa [List.headD_eq_head?] using hcomm
      simp [hcomm2]

theorem build_index_pathkeys_backward_witness :
    idxTwoCols.indproc = 0 ∧
    build_index_pathkeys emptyQuery relFixture idxTwoCols
      .BackwardScanDirection commutTotal =
      [[{ key := PKExpr.var 1 1, sortop := 21 }],
       [{ key := PKExpr.var 1 2, sortop := 22 }]] := by
  have h := (build_index_pathkeys_backward emptyQuery relFixture idxTwoCols
    commutTotal).2.1 (by decide)
  exact ⟨by decide, by rw [h]; decide⟩

/-! ### Claim C9 -/

/-- Under the invariant that every base/other rel has a single-element
relid list, the duplicate test of build_base_rel (first relid equals the
new relid) detects exactly the presence of a rel with relids
[relid]. -/
theorem any_headD_iff (lst : List RelOptInfo) (relid : Nat)
    (hwf : ∀ r ∈ lst, ∃ k, r.relids = [k]) :
    lst.any (fun rel => rel.relids.headD 0 == relid) = true ↔
      ∃ r ∈ lst, r.relids = [relid] := by
  rw [List.any_eq_true]
  constructor
  · rintro ⟨r, hr, hb⟩
    rcases hwf r hr with ⟨k, hk⟩
    refine ⟨r, hr, ?_⟩
    rw [hk] at hb ⊢
    simp only [List.headD, beq_iff_eq] at hb
    rw [hb]
  · rintro ⟨r, hr, hk⟩
    exact ⟨r, hr, by rw [hk]; simp⟩

/-- Counterexample to claim C9 as stated: with an empty registry (no
duplicate rel anywhere) but a range-table entry of join kind,
build_base_rel reports a fatal error — so an error does not imply a
pre-existing rel for the relid. -/
theorem build_base_rel_error_without_duplicate :
    rootJoinRte.base_rel_list = [] ∧
    rootJoinRte.other_rel_list = [] ∧
    build_base_rel statsNone indexesNone rootJoinRte 1 =
      Except.error "make_base_rel: unsupported RTE kind" := by
  refine ⟨rfl, rfl, ?_⟩
  rfl

/-- Claim C9 (amended): base-relation construction error contract —
given an in-range relid and the invariant that registered base/other
rels are keyed by singleton relid lists, build_base_rel errors iff a rel
with relids [relid] already exists in base_rel_list or other_rel_list,
or the range-table entry for relid has an unsupported kind (not a
relation, subquery or function); on success it pushes exactly one new
base node with relids [relid] onto base_rel_list and leaves
other_rel_list (and the rest of the context) unchanged. -/
theorem build_base_rel_contract (gri : Nat → Bool × Nat × Nat)
    (fsi : Nat → List IndexOptInfo) (root : Query) (relid : Nat)
    (hwfb : ∀ r ∈ root.base_rel_list, ∃ k, r.relids = [k])
    (hwfo : ∀ r ∈ root.other_rel_list, ∃ k, r.relids = [k])
    (hrange : 1 ≤ relid ∧ relid ≤ root.rtable.length) :
    ((∃ msg, build_base_rel gri fsi root relid = Except.error msg) ↔
      (∃ r ∈ root.base_rel_list, r.relids = [relid]) ∨
      (∃ r ∈ root.other_rel_list, r.relids = [relid]) ∨
      (∃ rte, root.rtable.get? (relid - 1) = some rte ∧
        rte.rtekind ≠ .RTE_RELATION ∧ rte.rtekind ≠ .RTE_SUBQUERY ∧
        rte.rtekind ≠ .RTE_FUNCTION)) ∧
    (∀ root2, build_base_rel gri fsi root relid = Except.ok root2 →
      (∃ newrel, root2.base_rel_list = newrel :: root.base_rel_list ∧
        newrel.relids = [relid] ∧ newrel.reloptkind = .RELOPT_BASEREL) ∧
      root2.other_rel_list = root.other_rel_list ∧
      root2.join_rel_list = root.join_rel_list ∧
      root2.equi_key_list = root.equi_key_list ∧
      root2.rtable = root.rtable) := by
  have hbase := any_headD_iff root.base_rel_list relid hwfb
  have hother := any_headD_iff root.other_rel_list relid hwfo
  have hlt : relid - 1 < root.rtable.length := by omega
  obtain ⟨rte, hrte⟩ : ∃ rte, root.rtable.get? (relid - 1) = some rte := by
    rw [List.get?_eq_get hlt]
    exact ⟨_, rfl⟩
  by_cases hb : root.base_rel_list.any (fun rel => rel.relids.headD 0 == relid) = true
  · constructor
    · constructor
      · intro _
        exact Or.inl (hbase.mp hb)
      · intro _
        refine ⟨"build_base_rel: rel already exists", ?_⟩
        unfold build_base_rel
        rw [if_pos hb]
    · intro root2 h
      unfold build_base_rel at h
      rw [if_pos hb] at h
      cases h
  · by_cases ho : root.other_rel_list.any (fun rel => rel.relids.headD 0 == relid) = true
    · constructor
      · constructor
        · intro _
          exact Or.inr (Or.inl (hother.mp ho))
        · intro _
          refine ⟨"build_base_rel: rel already exists as other rel", ?_⟩
          unfold build_base_rel
          rw [if_neg hb, if_pos ho]
      · intro root2 h
        unfold build_base_rel at h
        rw [if_neg hb, if_pos ho] at h
        cases h
    · have hbuild : build_base_rel gri fsi root relid =
          (make_base_rel gri fsi root relid).map
            (fun rel => { root with base_rel_list := rel :: root.base_rel_list }) := by
        unfold build_base_rel
        rw [if_neg hb, if_neg ho]
      obtain ⟨kind, oid⟩ := rte
      have hnotb : ¬ ∃ r ∈ root.base_rel_list, r.relids = [relid] := fun h => hb (hbase.mpr h)
      have hnoto : ¬ ∃ r ∈ root.other_rel_list, r.relids = [relid] := fun h => ho (hother.mpr h)
      cases kind with
      | RTE_RELATION =>
        have hmk : make_base_rel gri fsi root relid = Except.ok
            { reloptkind := .RELOPT_BASEREL, relids := [relid], rows := 0, width := 0,
              targetlist := [], joininfo := [],
              indexlist := if (gri oid).1 then fsi oid else [],
              pages := (gri oid).2.1, tuples := (gri oid).2.2,
              rtekind := .RTE_RELATION } := by
          unfold make_base_rel
          rw [hrte]
        rw [hbuild, hmk]
        constructor
        · constructor
          · rintro ⟨msg, hmsg⟩
            cases hmsg
          · rintro (h1 | h2 | h3)
            · exact absurd h1 hnotb
            · exact absurd h2 hnoto
            · rcases h3 with ⟨rte2, hrte2, hne, _⟩
              rw [hrte] at hrte2
              cases hrte2
              exact absurd rfl hne
        · intro root2 h
          cases h
          exact ⟨⟨_, rfl, rfl, rfl⟩, rfl, rfl, rfl, rfl⟩
      | RTE_SUBQUERY =>
        have hmk : make_base_rel gri fsi root relid = Except.ok
            { reloptkind := .RELOPT_BASEREL, relids := [relid], rows := 0, width := 0,
              targetlist := [], joininfo := [], indexlist := [], pages := 0,
              tuples := 0, rtekind := .RTE_SUBQUERY } := by
          unfold make_base_rel
          rw [hrte]
        rw [hbuild, hmk]
        constructor
        · constructor
          · rintro ⟨msg, hmsg⟩
            cases hmsg
          · rintro (h1 | h2 | h3)
            · exact absurd h1 hnotb
            · exact absurd h2 hnoto
            · rcases h3 with ⟨rte2, hrte2, _, hne, _⟩
              rw [hrte] at hrte2
              cases hrte2
              exact absurd rfl hne
        · intro root2 h
          cases h
          exact ⟨⟨_, rfl, rfl, rfl⟩, rfl, rfl, rfl, rfl⟩
      | RTE_FUNCTION =>
        have hmk : make_base_rel gri fsi root relid = Except.ok
            { reloptkind := .RELOPT_BASEREL, relids := [relid], rows := 0, width := 0,
              targetlist := [], joininfo := [], indexlist := [], pages := 0,
              tuples := 0, rtekind := .RTE_FUNCTION } := by
          unfold make_base_rel
          rw [hrte]
        rw [hbuild, hmk]
        constructor
        · constructor
          · rintro ⟨msg, hmsg⟩
            cases hmsg
          · rintro (h1 | h2 | h3)
            · exact absurd h1 hnotb
            · exact absurd h2 hnoto
            · rcases h3 with ⟨rte2, hrte2, _, _, hne⟩
              rw [hrte] at hrte2
              cases hrte2
              exact absurd rfl hne
        · intro root2 h
          cases h
          exact ⟨⟨_, rfl, rfl, rfl⟩, rfl, rfl, rfl, rfl⟩
      | RTE_JOIN =>
        have hmk : make_base_rel gri fsi root relid =
            Except.error "make_base_rel: unsupported RTE kind" := by
          unfold make_base_rel
          rw [hrte]
        rw [hbuild, hmk]
        constructor
        · constructor
          · intro _
            exact Or.inr (Or.inr ⟨_, hrte, by simp, by simp, by simp⟩)
          · intro _
            exact ⟨_, rfl⟩
        · intro root2 h
          cases h
      | RTE_SPECIAL =>
        have hmk : make_base_rel gri fsi root relid =
            Except.error "make_base_rel: unsupported RTE kind" := by
          unfold make_base_rel
          rw [hrte]
        rw [hbuild, hmk]
        constructor
        · constructor
          · intro _
            exact Or.inr (Or.inr ⟨_, hrte, by simp, by simp, by simp⟩)
          · intro _
            exact ⟨_, rfl⟩
        · intro root2 h
          cases h

theorem build_base_rel_contract_witness :
    (1 ≤ 1 ∧ 1 ≤ rootDupBase.rtable.length) ∧
    (∃ msg, build_base_rel statsNone indexesNone rootDupBase 1 = Except.error msg) :=
  ⟨⟨Nat.le_refl 1, by decide⟩,
   (build_base_rel_contract statsNone indexesNone rootDupBase 1
     (fun r hr => ⟨1, by rcases List.mem_singleton.mp hr with rfl; rfl⟩)
     (fun r hr => absurd hr (List.not_mem_nil r))
     ⟨Nat.le_refl 1, by decide⟩).1.mpr
     (Or.inl ⟨relFixture, by decide, rfl⟩)⟩

/-! ### Claim C3 -/

/-- A set-equal-to-nonempty key is nonempty. -/
theorem sameseti_ne_nil {l1 l2 : List Nat} (h : sameseti l1 l2 = true)
    (hne : l2 ≠ []) : l1 ≠ [] := by
  rcases List.exists_mem_of_ne_nil l2 hne with ⟨x, hx⟩
  have hx1 : x ∈ l1 := (sameseti_iff l1 l2).mp h |>.2 x hx
  exact List.ne_nil_of_mem hx1

/-- Membership in the graduated-restriction list: a predicate is
collected exactly when one of the input JoinInfo entries whose awaited
relids are a subset of the joinrel's relids carries it. -/
theorem mem_subbuild_joinrel_restrictlist (jr : RelOptInfo)
    (jlist : List JoinInfo) (p : RestrictInfo) :
    p ∈ subbuild_joinrel_restrictlist jr jlist ↔
    ∃ ji ∈ jlist, is_subseti ji.unjoined_relids jr.relids = true ∧
      p ∈ ji.jinfo_restrictinfo := by
  induction jlist with
  | nil => simp [subbuild_joinrel_restrictlist]
  | cons ji rest ih =>
    by_cases h : is_subseti ji.unjoined_relids jr.relids = true
    · simp [subbuild_joinrel_restrictlist, h, ih, List.mem_append, or_and_left]
    · simp [subbuild_joinrel_restrictlist, h, ih]

/-- An in-place joininfo update keeps every (key, member) witness:
the touched entry keeps its key and only gains predicates. -/
theorem update_joininfo_preserves (relids2 : List Nat) (preds2 : List RestrictInfo)
    (K : List Nat) (p : RestrictInfo) :
    ∀ jl jl2 : List JoinInfo, update_joininfo jl relids2 preds2 = some jl2 →
    (∃ ji ∈ jl, sameseti ji.unjoined_relids K = true ∧ p ∈ ji.jinfo_restrictinfo) →
    ∃ ji ∈ jl2, sameseti ji.unjoined_relids K = true ∧ p ∈ ji.jinfo_restrictinfo := by
  intro jl
  induction jl with
  | nil => intro jl2 h; cases h
  | cons ji rest ih =>
    intro jl2 h hex
    by_cases hs : sameseti relids2 ji.unjoined_relids = true
    · rw [update_joininfo, if_pos hs] at h
      cases h
      rcases hex with ⟨ji0, hmem, hkey, hp⟩
      rcases List.mem_cons.mp hmem with rfl | htail
      · exact ⟨_, List.mem_cons_self _ _,
          hkey, (mem_set_union p _ preds2).mpr (Or.inl hp)⟩
      · exact ⟨ji0, List.mem_cons_of_mem _ htail, hkey, hp⟩
    · rw [update_joininfo, if_neg hs] at h
      cases hu : update_joininfo rest relids2 preds2 with
      | none => rw [hu] at h; cases h
      | some rest2 =>
        rw [hu] at h
        cases h
        rcases hex with ⟨ji0, hmem, hkey, hp⟩
        rcases List.mem_cons.mp hmem with rfl | htail
        · exact ⟨ji0, List.mem_cons_self _ _, hkey, hp⟩
        · rcases ih rest2 hu ⟨ji0, htail, hkey, hp⟩ with ⟨ji2, hm2, hk2, hp2⟩
          exact ⟨ji2, List.mem_cons_of_mem _ hm2, hk2, hp2⟩

/-- find-or-create keeps every (key, member) witness. -/
theorem add_to_joininfo_preserves (jl : List JoinInfo) (relids2 : List Nat)
    (preds2 : List RestrictInfo) (K : List Nat) (p : RestrictInfo)
    (hex : ∃ ji ∈ jl, sameseti ji.unjoined_relids K = true ∧ p ∈ ji.jinfo_restrictinfo) :
    ∃ ji ∈ add_to_joininfo jl relids2 preds2,
      sameseti ji.unjoined_relids K = true ∧ p ∈ ji.jinfo_restrictinfo := by
  unfold add_to_joininfo
  cases hu : update_joininfo jl relids2 preds2 with
  | some jl2 => exact update_joininfo_preserves relids2 preds2 K p jl jl2 hu hex
  | none =>
    rcases hex with ⟨ji0, hmem, hkey, hp⟩
    exact ⟨ji0, List.mem_cons_of_mem _ hmem, hkey, hp⟩

/-- A successful in-place update leaves every added predicate in an
entry whose key set-equals the requested key. -/
theorem update_joininfo_some_spec (K : List Nat) (preds : List RestrictInfo)
    (p : RestrictInfo) (hp : p ∈ preds) :
    ∀ jl jl2 : List JoinInfo, update_joininfo jl K preds = some jl2 →
    ∃ ji2 ∈ jl2, sameseti ji2.unjoined_relids K = true ∧ p ∈ ji2.jinfo_restrictinfo := by
  intro jl
  induction jl with
  | nil => intro jl2 h; cases h
  | cons ji rest ih =>
    intro jl2 h
    by_cases hs : sameseti K ji.unjoined_relids = true
    · rw [update_joininfo, if_pos hs] at h
      cases h
      exact ⟨_, List.mem_cons_self _ _, sameseti_symm hs,
        (mem_set_union p _ preds).mpr (Or.inr hp)⟩
    · rw [update_joininfo, if_neg hs] at h
      cases hu2 : update_joininfo rest K preds with
      | none => rw [hu2] at h; cases h
      | some rest2 =>
        rw [hu2] at h
        cases h
        rcases ih rest2 hu2 with ⟨ji2, hm2, hk2, hp2⟩
        exact ⟨ji2, List.mem_cons_of_mem _ hm2, hk2, hp2⟩

/-- After a deduplicating union into the entry keyed K, every predicate
of the added list is present in an entry whose key set-equals K. -/
theorem mem_add_to_joininfo (jl : List JoinInfo) (K : List Nat)
    (preds : List RestrictInfo) (p : RestrictInfo) (hp : p ∈ preds) :
    ∃ ji2 ∈ add_to_joininfo jl K preds,
      sameseti ji2.unjoined_relids K = true ∧ p ∈ ji2.jinfo_restrictinfo := by
  unfold add_to_joininfo
  cases hu : update_joininfo jl K preds with
  | some jl2 => exact update_joininfo_some_spec K preds p hp jl jl2 hu
  | none =>
    exact ⟨_, List.mem_cons_self _ _, sameseti_refl K,
      (mem_set_union p [] preds).mpr (Or.inr hp)⟩

/-- subbuild_joinrel_joinlist only edits the joininfo field. -/
theorem subbuild_joinrel_joinlist_relids (jlist : List JoinInfo) :
    ∀ jr : RelOptInfo, (subbuild_joinrel_joinlist jr jlist).relids = jr.relids := by
  induction jlist with
  | nil => intro jr; rfl
  | cons ji rest ih =>
    intro jr
    unfold subbuild_joinrel_joinlist
    by_cases h : set_differencei ji.unjoined_relids jr.relids = []
    · rw [if_pos h]; exact ih jr
    · rw [if_neg h]; exact ih _

/-- The joinlist fold keeps every (key, member) witness already present
in the joinrel's joininfo. -/
theorem subbuild_joinrel_joinlist_mono (K : List Nat) (p : RestrictInfo)
    (jlist : List JoinInfo) :
    ∀ jr : RelOptInfo,
    (∃ ji ∈ jr.joininfo, sameseti ji.unjoined_relids K = true ∧ p ∈ ji.jinfo_restrictinfo) →
    ∃ ji ∈ (subbuild_joinrel_joinlist jr jlist).joininfo,
      sameseti ji.unjoined_relids K = true ∧ p ∈ ji.jinfo_restrictinfo := by
  induction jlist with
  | nil => intro jr hex; exact hex
  | cons ji rest ih =>
    intro jr hex
    unfold subbuild_joinrel_joinlist
    by_cases h : set_differencei ji.unjoined_relids jr.relids = []
    · rw [if_pos h]; exact ih jr hex
    · rw [if_neg h]
      exact ih _ (add_to_joininfo_preserves jr.joininfo _ _ K p hex)

/-- Claim C3 (part): every non-graduating entry's predicates land in a
joininfo entry of the result keyed by its reduced awaited set. -/
theorem subbuild_joinrel_joinlist_places (jlist : List JoinInfo) :
    ∀ jr : RelOptInfo, ∀ ji ∈ jlist,
    ¬ is_subseti ji.unjoined_relids jr.relids = true →
    ∀ p ∈ ji.jinfo_restrictinfo,
    ∃ ji2 ∈ (subbuild_joinrel_joinlist jr jlist).joininfo,
      sameseti ji2.unjoined_relids (set_differencei ji.unjoined_relids jr.relids) = true ∧
      p ∈ ji2.jinfo_restrictinfo := by
  induction jlist with
  | nil => intro jr ji hmem; cases hmem
  | cons ji0 rest ih =>
    intro jr ji hmem hnsub p hp
    have hdiff : ¬ set_differencei ji.unjoined_relids jr.relids = [] := by
      intro h
      exact hnsub ((set_differencei_eq_nil_iff _ _).mp h)
    rcases List.mem_cons.mp hmem with rfl | htail
    · unfold subbuild_joinrel_joinlist
      rw [if_neg hdiff]
      exact subbuild_joinrel_joinlist_mono _ p rest _
        (mem_add_to_joininfo jr.joininfo _ ji.jinfo_restrictinfo p hp)
    · unfold subbuild_joinrel_joinlist
      by_cases h0 : set_differencei ji0.unjoined_relids jr.relids = []
      · rw [if_pos h0]
        exact ih jr ji htail hnsub p hp
      · rw [if_neg h0]
        exact ih
          { jr with joininfo :=
              (add_to_joininfo jr.joininfo
                (set_differencei ji0.unjoined_relids jr.relids)
                ji0.jinfo_restrictinfo) }
          ji htail hnsub p hp

/-- Skipping graduated entries: the joinlist fold is unchanged if the
graduated (subset) entries are removed from the input first. -/
theorem subbuild_joinrel_joinlist_skips_graduated (jlist : List JoinInfo) :
    ∀ jr : RelOptInfo,
    subbuild_joinrel_joinlist jr jlist =
    subbuild_joinrel_joinlist jr
      (jlist.filter (fun ji => !(is_subseti ji.unjoined_relids jr.relids))) := by
  induction jlist with
  | nil => intro jr; rfl
  | cons ji rest ih =>
    intro jr
    by_cases hsub : is_subseti ji.unjoined_relids jr.relids = true
    · have hdiff : set_differencei ji.unjoined_relids jr.relids = [] :=
        (set_differencei_eq_nil_iff _ _).mpr hsub
      rw [List.filter_cons_of_neg (by simp [hsub])]
      conv_lhs => rw [subbuild_joinrel_joinlist]
      rw [if_pos hdiff]
      exact ih jr
    · have hdiff : ¬ set_differencei ji.unjoined_relids jr.relids = [] := by
        intro h
        exact hsub ((set_differencei_eq_nil_iff _ _).mp h)
      rw [List.filter_cons_of_pos (by simp [hsub])]
      conv_lhs => rw [subbuild_joinrel_joinlist]
      conv_rhs => rw [subbuild_joinrel_joinlist]
      rw [if_neg hdiff, if_neg hdiff]
      exact ih
        { jr with joininfo :=
            (add_to_joininfo jr.joininfo
              (set_differencei ji.unjoined_relids jr.relids)
              ji.jinfo_restrictinfo) }

/-- Claim C3: predicate graduation is exactly-once and subset-triggered —
for a joinrel with relid set S fed one input's outstanding joininfo
list, a predicate occurrence is collected into the restriction list
(before redundancy elimination) iff its entry's awaited set is a subset
of S; the joininfo output is built from exactly the non-graduating
entries; and each non-graduating entry has a nonempty reduced awaited
set and contributes every one of its predicates to a result joininfo
entry keyed (by set equality) by that nonempty reduced set. -/
theorem subbuild_joinrel_graduation (jr : RelOptInfo) (jlist : List JoinInfo) :
    (∀ p : RestrictInfo, p ∈ subbuild_joinrel_restrictlist jr jlist ↔
      ∃ ji ∈ jlist, is_subseti ji.unjoined_relids jr.relids = true ∧
        p ∈ ji.jinfo_restrictinfo) ∧
    (subbuild_joinrel_joinlist jr jlist =
      subbuild_joinrel_joinlist jr
        (jlist.filter (fun ji => !(is_subseti ji.unjoined_relids jr.relids)))) ∧
    (∀ ji ∈ jlist, ¬ is_subseti ji.unjoined_relids jr.relids = true →
      set_differencei ji.unjoined_relids jr.relids ≠ [] ∧
      ∀ p ∈ ji.jinfo_restrictinfo,
      ∃ ji2 ∈ (subbuild_joinrel_joinlist jr jlist).joininfo,
        sameseti ji2.unjoined_relids (set_differencei ji.unjoined_relids jr.relids) = true ∧
        ji2.unjoined_relids ≠ [] ∧
        p ∈ ji2.jinfo_restrictinfo) := by
  refine ⟨mem_subbuild_joinrel_restrictlist jr jlist,
    subbuild_joinrel_joinlist_skips_graduated jlist jr, ?_⟩
  intro ji hmem hnsub
  have hdiff : set_differencei ji.unjoined_relids jr.relids ≠ [] := by
    intro h
    exact hnsub ((set_differencei_eq_nil_iff _ _).mp h)
  refine ⟨hdiff, ?_⟩
  intro p hp
  rcases subbuild_joinrel_joinlist_places jlist jr ji hmem hnsub p hp with
    ⟨ji2, hm2, hk2, hp2⟩
  exact ⟨ji2, hm2, hk2, sameseti_ne_nil hk2 hdiff, hp2⟩

theorem subbuild_joinrel_graduation_witness :
    (joininfoAwait23 ∈ [joininfoAwait23] ∧
     ¬ is_subseti joininfoAwait23.unjoined_relids joinRel12.relids = true ∧
     mkEqClause (pkItem 1) (pkItem 2) ∈ joininfoAwait23.jinfo_restrictinfo) ∧
    set_differencei joininfoAwait23.unjoined_relids joinRel12.relids ≠ [] ∧
    (∃ ji2 ∈ (subbuild_joinrel_joinlist joinRel12 [joininfoAwait23]).joininfo,
      sameseti ji2.unjoined_relids
        (set_differencei joininfoAwait23.unjoined_relids joinRel12.relids) = true ∧
      ji2.unjoined_relids ≠ [] ∧
      mkEqClause (pkItem 1) (pkItem 2) ∈ ji2.jinfo_restrictinfo) := by
  have h := (subbuild_joinrel_graduation joinRel12 [joininfoAwait23]).2.2
    joininfoAwait23 (by decide) (by decide)
  exact ⟨⟨by decide, by decide, by decide⟩, h.1,
    h.2 (mkEqClause (pkItem 1) (pkItem 2)) (by decide)⟩

/-! ### Claim C1 -/

/-- build_joinrel_joinlist only edits the joininfo field. -/
theorem build_joinrel_joinlist_relids (jr outer_rel inner_rel : RelOptInfo) :
    (build_joinrel_joinlist jr outer_rel inner_rel).relids = jr.relids := by
  unfold build_joinrel_joinlist
  rw [subbuild_joinrel_joinlist_relids, subbuild_joinrel_joinlist_relids]

/-- In a registry without duplicate relid sets, find_join_rel returns
precisely the (unique) registered rel whose relids set-equal the key. -/
theorem find_join_rel_of_unique :
    ∀ (l : List RelOptInfo) (relids : List Nat) (jr : RelOptInfo),
    l.Pairwise (fun r1 r2 => ¬ sameseti r1.relids r2.relids = true) →
    jr ∈ l → sameseti jr.relids relids = true →
    l.find? (fun rel => sameseti rel.relids relids) = some jr := by
  intro l
  induction l with
  | nil => intro relids jr _ hmem; cases hmem
  | cons r rest ih =>
    intro relids jr hpw hmem hsame
    rcases List.pairwise_cons.mp hpw with ⟨hhead, htail⟩
    rcases List.mem_cons.mp hmem with rfl | hrest
    · exact List.find?_cons_of_pos rest hsame
    · have hrneg : ¬ sameseti r.relids relids = true := by
        intro hr
        exact hhead jr hrest (sameseti_trans hr (sameseti_symm hsame))
      rw [List.find?_cons_of_neg rest hrneg]
      exact ih relids jr htail hrest hsame

/-- One build_join_rel call preserves the no-duplicate-relid-set
invariant of the join registry. -/
theorem build_join_rel_preserves_unique (ext : Externals) (root : Query)
    (joinrelids : List Nat) (outer_rel inner_rel : RelOptInfo) (jointype : JoinType)
    (h : JoinRelIdsUnique root) :
    JoinRelIdsUnique (build_join_rel ext root joinrelids outer_rel inner_rel jointype).1 := by
  unfold build_join_rel
  cases hf : find_join_rel root joinrelids with
  | some jr => exact h
  | none =>
    unfold JoinRelIdsUnique
    refine List.Pairwise.cons ?_ h
    intro r hr hcontra
    have hnot : ¬ sameseti r.relids joinrelids = true := by
      have := List.find?_eq_none.mp hf r hr
      simpa using this
    apply hnot
    simp only [build_joinrel_joinlist_relids] at hcontra
    exact sameseti_symm hcontra

/-- Claim C1: join-node uniqueness and confluence — starting from any
context whose join registry has no two nodes with set-equal relid lists,
every sequence of build_join_rel calls preserves that invariant; and a
call whose joinrelids set-equal the relids of an already-registered node
(no matter how the set is split into outer and inner inputs) returns
that registered node with the whole context — hence the node's target
list, size estimate and joininfo, and the registry — unchanged,
recomputing only the returned restriction list. -/
theorem build_join_rel_confluence (ext : Externals) :
    (∀ (reqs : List JoinBuildRequest) (root : Query),
      JoinRelIdsUnique root → JoinRelIdsUnique (run_join_builds ext root reqs)) ∧
    (∀ (root : Query) (joinrelids : List Nat) (outer_rel inner_rel : RelOptInfo)
       (jointype : JoinType) (jr : RelOptInfo),
      JoinRelIdsUnique root → jr ∈ root.join_rel_list →
      sameseti jr.relids joinrelids = true →
      build_join_rel ext root joinrelids outer_rel inner_rel jointype =
        (root, jr, build_joinrel_restrictlist ext jr outer_rel inner_rel jointype)) := by
  constructor
  · intro reqs
    induction reqs with
    | nil => intro root h; exact h
    | cons q rest ih =>
      intro root h
      exact ih _ (build_join_rel_preserves_unique ext root q.joinrelids
        q.outer_rel q.inner_rel q.jointype h)
  · intro root joinrelids outer_rel inner_rel jointype jr huniq hmem hsame
    have hfind : find_join_rel root joinrelids = some jr :=
      find_join_rel_of_unique root.join_rel_list joinrelids jr huniq hmem hsame
    unfold build_join_rel
    rw [hfind]

theorem build_join_rel_confluence_witness :
    JoinRelIdsUnique
      (run_join_builds extId emptyQuery
        [{ joinrelids := [1, 2], outer_rel := baseRelWith 1 [],
           inner_rel := baseRelWith 2 [], jointype := .JOIN_INNER }]) ∧
    joinRel12 ∈ (run_join_builds extId emptyQuery
        [{ joinrelids := [1, 2], outer_rel := baseRelWith 1 [],
           inner_rel := baseRelWith 2 [], jointype := .JOIN_INNER }]).join_rel_list ∧
    sameseti joinRel12.relids [2, 1] = true ∧
    build_join_rel extId
      (run_join_builds extId emptyQuery
        [{ joinrelids := [1, 2], outer_rel := baseRelWith 1 [],
           inner_rel := baseRelWith 2 [], jointype := .JOIN_INNER }])
      [2, 1] (baseRelWith 2 []) (baseRelWith 1 []) .JOIN_INNER =
      (run_join_builds extId emptyQuery
        [{ joinrelids := [1, 2], outer_rel := baseRelWith 1 [],
           inner_rel := baseRelWith 2 [], jointype := .JOIN_INNER }],
       joinRel12,
       build_joinrel_restrictlist extId joinRel12 (baseRelWith 2 [])
         (baseRelWith 1 []) .JOIN_INNER) := by
  have huniq := (build_join_rel_confluence extId).1
    [{ joinrelids := [1, 2], outer_rel := baseRelWith 1 [],
       inner_rel := baseRelWith 2 [], jointype := .JOIN_INNER }]
    emptyQuery List.Pairwise.nil
  refine ⟨huniq, by decide, by decide, ?_⟩
  exact (build_join_rel_confluence extId).2 _ [2, 1] (baseRelWith 2 [])
    (baseRelWith 1 []) .JOIN_INNER joinRel12 huniq (by decide) (by decide)

end PgPlanner
